import Mathlib

/-!
Shallow embedding of the grdb graph-database access layer.

The store (rocksdb) is modelled as an association list from byte-string
keys to values, kept sorted in ascending byte order; a point write
(`Store.put`) inserts or overwrites at the sorted position, matching the
ordered key-value store's behaviour.  Serialized values (bincode) are
modelled by the sum type `DBValue`, treating serialization as an injective
encoding; `deserialize_vertex` returns `none` where the code's
deserialization would fail.  Iterators are modelled by explicit step
functions on iterator states, plus drain functions giving the full
sequence a consumer observes by pulling until the first `none`.
-/

namespace Grdb

/-- Byte-string keys of the ordered key-value store.  UTF-8 encoding is
order-preserving and prefix-preserving on characters, so a list of
characters compared pointwise models the byte key faithfully. -/
abbrev Key := List Char

/-- Ascending byte order on keys: the comparator of the ordered store. -/
def keyLt : Key → Key → Bool
  | [], [] => false
  | [], _ :: _ => true
  | _ :: _, [] => false
  | a :: as, b :: bs => if a < b then true else if b < a then false else keyLt as bs

/-- Entity record from vertex.rs: identifier, label, property mapping
(a `HashMap<String,String>`, modelled as an association list; it is empty
for every vertex this program creates). -/
structure Vertex where
  id : Nat
  label : String
  prop : List (String × String)
deriving DecidableEq, Repr

/-- Default label, `DEFAULT_LABEL` in vertex.rs. -/
def DEFAULT_LABEL : String := "vertex"

/-- Entity key stem, `KEY_PREFIX` in vertex.rs. -/
def KEY_PREFIX : Key := "vtx_".data

/-- Well-known context key, `KEY_SYS_CONTEXT` in lib.rs. -/
def KEY_SYS_CONTEXT : Key := "sys_context".data

/-- Constructor `Vertex::new`: properties start empty. -/
def Vertex.new (id : Nat) (label : String) : Vertex :=
  { id := id, label := label, prop := [] }

/-- A stored (serialized) value: either the graph context record holding
the last sequence number, or a vertex record. -/
inductive DBValue where
  | ctx (lsn : Nat)
  | vtx (v : Vertex)
deriving DecidableEq, Repr

/-- Key layout from `create_vertex_key` in lib.rs: the fixed stem
followed by the un-padded decimal string of the id. -/
def create_vertex_key (id : Nat) : Key := KEY_PREFIX ++ (Nat.repr id).data

/-- Modelled bincode deserialization of a stored value into a vertex;
`none` stands for the panic the code's `unwrap` would raise on bytes that
do not decode to a vertex. -/
def deserialize_vertex : DBValue → Option Vertex
  | DBValue.vtx v => some v
  | DBValue.ctx _ => none

/-- The ordered key-value store: an association list sorted by `keyLt`. -/
abbrev Store := List (Key × DBValue)

/-- Point read by key. -/
def Store.get : Store → Key → Option DBValue
  | [], _ => none
  | (k', v) :: rest, k => if k = k' then some v else Store.get rest k

/-- Point write by key: overwrite an existing entry or insert at the
sorted position. -/
def Store.put : Store → Key → DBValue → Store
  | [], k, v => [(k, v)]
  | (k', v') :: rest, k, v =>
    if k = k' then (k, v) :: rest
    else if keyLt k k' then (k, v) :: (k', v') :: rest
    else (k', v') :: Store.put rest k v

/-- The store's keys are strictly ascending (holds for every store the
operations build, and is what makes the scan order ascending). -/
abbrev Store.SortedKeys (s : Store) : Prop :=
  s.Pairwise (fun a b => keyLt a.1 b.1 = true)

/-- The underlying scan opened by `database.prefix_iterator(p)`: the
iterator is seeked to the first key not below `p` and then runs in
ascending key order to the end of the store. -/
def seekScan (s : Store) (p : Key) : List (Key × DBValue) :=
  s.filter (fun kv => !(keyLt kv.1 p))

/-- Dirty-entry wrapper from lib.rs. -/
structure DirtyEntry where
  dirty : Bool
  entry : Vertex
deriving DecidableEq, Repr

/-- Constructor `DirtyEntry::new`: a fresh entry starts dirty. -/
def DirtyEntry.new (entry : Vertex) : DirtyEntry :=
  { dirty := true, entry := entry }

/-- The traversal context's cache, `HashMap<usize, DirtyEntry<Vertex>>`
(modelled as an association list; the program only ever builds caches
with zero or one entry, so hash iteration order is immaterial). -/
abbrev VertexCache := List (Nat × DirtyEntry)

/-- Cache lookup by id (`HashMap::get`). -/
def cacheGet : VertexCache → Nat → Option DirtyEntry
  | [], _ => none
  | (i, e) :: rest, id => if id = i then some e else cacheGet rest id

/-- Transcription of `impl Drop for TraversalContext`: for every cache
entry whose dirty flag is set, serialize the entity and point-write it
under its entity key.  The loop reads the cache and never mutates it; in
particular it does not clear any dirty flag. -/
def flushContext (vertices : VertexCache) (s : Store) : Store :=
  vertices.foldl
    (fun acc p =>
      if p.2.dirty then Store.put acc (create_vertex_key p.1) (DBValue.vtx p.2.entry) else acc)
    s

/-- The same drop loop, instrumented with a count of the store writes it
performs. -/
def flushContextCount (vertices : VertexCache) (s : Store) : Store × Nat :=
  vertices.foldl
    (fun acc p =>
      if p.2.dirty then
        (Store.put acc.1 (create_vertex_key p.1) (DBValue.vtx p.2.entry), acc.2 + 1)
      else acc)
    (s, 0)

/-- State of a `GraphTraversalSource`: the store plus the in-memory
`Cell<GraphContext>` holding the last sequence number. -/
structure GraphState where
  store : Store
  lsn : Nat
deriving DecidableEq, Repr

/-- Transcription of `GraphTraversalSource::save_context`. -/
def GraphTraversalSource.save_context (g : GraphState) : GraphState :=
  { g with store := Store.put g.store KEY_SYS_CONTEXT (DBValue.ctx g.lsn) }

/-- Transcription of `GraphTraversalSource::new_id`: increment the
in-memory counter, persist it, return the incremented value. -/
def GraphTraversalSource.new_id (g : GraphState) : Nat × GraphState :=
  (g.lsn + 1, GraphTraversalSource.save_context { g with lsn := g.lsn + 1 })

/-- Transcription of `GraphTraversalSource::new` (open): when the context
key is absent, initialize and persist a zero counter; otherwise load the
persisted counter.  `none` stands for the deserialization panic when the
stored value under the context key is not a context record. -/
def GraphTraversalSource.new (s : Store) : Option GraphState :=
  match Store.get s KEY_SYS_CONTEXT with
  | none => some { store := Store.put s KEY_SYS_CONTEXT (DBValue.ctx 0), lsn := 0 }
  | some (DBValue.ctx n) => some { store := s, lsn := n }
  | some (DBValue.vtx _) => none

/-- The empty store opened into a fresh source. -/
def freshGraph : GraphState :=
  { store := Store.put [] KEY_SYS_CONTEXT (DBValue.ctx 0), lsn := 0 }

/-- State of an `AddVertexTraversal`: the one-shot id token and the
traversal context's cache (field `context` in vertex.rs). -/
structure AddVertexTraversal where
  id : Option Nat
  context : VertexCache
deriving DecidableEq, Repr

/-- Transcription of `GraphTraversalSource::add_vertex_with_label`:
allocate an id, build the vertex, insert it into a fresh context as a
dirty entry, return the one-element add traversal (and the updated
source state). -/
def GraphTraversalSource.add_vertex_with_label (g : GraphState) (label : String) :
    AddVertexTraversal × GraphState :=
  let p := GraphTraversalSource.new_id g
  let vertex := Vertex.new p.1 label
  ({ id := some p.1, context := [(p.1, DirtyEntry.new vertex)] }, p.2)

/-- Transcription of `GraphTraversalSource::add_vertex`. -/
def GraphTraversalSource.add_vertex (g : GraphState) : AddVertexTraversal × GraphState :=
  GraphTraversalSource.add_vertex_with_label g DEFAULT_LABEL

/-- Transcription of `impl Iterator for AddVertexTraversal`: take the id
token (exhausting the iterator) and serve the entity from the context
cache.  It takes no store argument: the pull never reads the store. -/
def AddVertexTraversal.next (t : AddVertexTraversal) : Option Vertex × AddVertexTraversal :=
  match t.id with
  | none => (none, t)
  | some id => ((cacheGet t.context id).map DirtyEntry.entry, { t with id := none })

/-- State of the prefix scan adapter (`PrefixSearchIterator` in db.rs):
the remaining underlying scan and the configured stem (field `pfx`
models the Rust field holding the byte stem, whose name Lean reserves). -/
structure PrefixSearchIterator where
  prefix_iterator : List (Key × DBValue)
  pfx : Key
deriving DecidableEq, Repr

/-- Transcription of `PrefixSearchIterator::next`: pull the next pair
from the underlying scan; a key that does not start with the stem ends
the sequence. -/
def PrefixSearchIterator.next (it : PrefixSearchIterator) :
    Option (Key × DBValue) × PrefixSearchIterator :=
  match it.prefix_iterator with
  | [] => (none, it)
  | kv :: rest =>
    if it.pfx.isPrefixOf kv.1 then (some kv, { it with prefix_iterator := rest })
    else (none, { it with prefix_iterator := rest })

/-- The sequence a consumer drains from the adapter by pulling until the
first `none`. -/
def psDrain (p : Key) : List (Key × DBValue) → List (Key × DBValue)
  | [] => []
  | kv :: rest => if p.isPrefixOf kv.1 then kv :: psDrain p rest else []

/-- State of a `VertexTraversal` (scan step): the adapter, the optional
label filter, and the context's cache (`_context`, untouched by the
iterator). -/
structure VertexTraversal where
  prefix_search : PrefixSearchIterator
  label : Option String
  _context : VertexCache
deriving DecidableEq, Repr

/-- Drained sequence of the scan step without a label filter: each pull
takes one pair from the adapter and deserializes it (`none` = panic). -/
def scanNoLabel (p : Key) : List (Key × DBValue) → Option (List Vertex)
  | [] => some []
  | kv :: rest =>
    if p.isPrefixOf kv.1 then
      match deserialize_vertex kv.2 with
      | none => none
      | some v => (scanNoLabel p rest).map (fun vs => v :: vs)
    else some []

/-- Drained sequence of the scan step with a label filter: each adapter
pair is deserialized, entities with a non-matching label are skipped
without ending the scan. -/
def scanWithLabel (p : Key) (l : String) : List (Key × DBValue) → Option (List Vertex)
  | [] => some []
  | kv :: rest =>
    if p.isPrefixOf kv.1 then
      match deserialize_vertex kv.2 with
      | none => none
      | some v =>
        if v.label = l then (scanWithLabel p l rest).map (fun vs => v :: vs)
        else scanWithLabel p l rest
    else some []

/-- Drained sequence of `impl Iterator for VertexTraversal`, by the two
branches of its `next` on the label filter. -/
def VertexTraversal.drain (t : VertexTraversal) : Option (List Vertex) :=
  match t.label with
  | none => scanNoLabel t.prefix_search.pfx t.prefix_search.prefix_iterator
  | some l => scanWithLabel t.prefix_search.pfx l t.prefix_search.prefix_iterator

/-- State of a `VertexWithIdTraversal`: the one-shot id token and the
context's cache (`_context`, untouched by the iterator). -/
structure VertexWithIdTraversal where
  id : Option Nat
  _context : VertexCache
deriving DecidableEq, Repr

/-- Drained sequence of `impl Iterator for VertexWithIdTraversal`: the
first pull takes the id token and point-reads the store under the entity
key; a missing key ends the sequence with no elements. -/
def VertexWithIdTraversal.drain (s : Store) (t : VertexWithIdTraversal) :
    Option (List Vertex) :=
  match t.id with
  | none => some []
  | some id =>
    match Store.get s (create_vertex_key id) with
    | none => some []
    | some dv => (deserialize_vertex dv).map (fun v => [v])

/-- Transcription of `GraphTraversalSource::vertices`: open the adapter
over the entity key stem, wrap a fresh empty context. -/
def GraphTraversalSource.vertices (g : GraphState) : VertexTraversal :=
  { prefix_search := { prefix_iterator := seekScan g.store KEY_PREFIX, pfx := KEY_PREFIX },
    label := none,
    _context := [] }

/-- Transcription of `GraphTraversalSource::vertices_with_label`. -/
def GraphTraversalSource.vertices_with_label (g : GraphState) (label : String) :
    VertexTraversal :=
  { prefix_search := { prefix_iterator := seekScan g.store KEY_PREFIX, pfx := KEY_PREFIX },
    label := some label,
    _context := [] }

/-- Transcription of `GraphTraversalSource::vertex_with_id`. -/
def GraphTraversalSource.vertex_with_id (g : GraphState) (id : Nat) :
    VertexWithIdTraversal :=
  { id := some id, _context := [] }

/-- One `add_vertex` call whose traversal is then dropped (the returned
entity's id is extracted from the single pull, and the drop flushes the
context to the store). -/
def addVertexAndDrop (g : GraphState) : Nat × GraphState :=
  let p := GraphTraversalSource.add_vertex g
  let pulled := AddVertexTraversal.next p.1
  (((pulled.1).map Vertex.id).getD 0,
   { p.2 with store := flushContext p.1.context p.2.store })

/-- N sequential `add_vertex` calls, each traversal dropped before the
next call; records each returned id with the source state after the
call. -/
def addChain (g : GraphState) : Nat → List (Nat × GraphState)
  | 0 => []
  | n + 1 =>
    let p := addVertexAndDrop g
    p :: addChain p.2 n

/-- The source state after N sequential `add_vertex` calls, each
traversal dropped before the next call. -/
def addN (g : GraphState) : Nat → GraphState
  | 0 => g
  | n + 1 => addN (addVertexAndDrop g).2 n

/-- The source state after one `add_vertex_with_label` call per listed
label, each traversal dropped before the next call. -/
def addLabeledChain (g : GraphState) : List String → GraphState
  | [] => g
  | l :: ls =>
    let p := GraphTraversalSource.add_vertex_with_label g l
    addLabeledChain { p.2 with store := flushContext p.1.context p.2.store } ls

/-- The store after `add_vertex_with_label` whose traversal is abandoned
without being consumed: the context is dropped and flushed. -/
def addAbandonStore (g : GraphState) (label : String) : Store :=
  let p := GraphTraversalSource.add_vertex_with_label g label
  flushContext p.1.context p.2.store

/-! Helper lemmas about the store. -/

theorem Store.get_put_same : ∀ (s : Store) (k : Key) (v : DBValue),
    Store.get (Store.put s k v) k = some v
  | [], k, v => by simp [Store.put, Store.get]
  | (k', v') :: rest, k, v => by
    by_cases h1 : k = k'
    · simp [Store.put, h1, Store.get]
    · by_cases h2 : keyLt k k' = true
      · simp [Store.put, h1, h2, Store.get]
      · simp [Store.put, h1, h2, Store.get, Store.get_put_same rest k v]

theorem Store.get_put_ne : ∀ (s : Store) (k k' : Key) (v : DBValue), k ≠ k' →
    Store.get (Store.put s k' v) k = Store.get s k
  | [], k, k', v, h => by simp [Store.put, Store.get, h]
  | (k0, v0) :: rest, k, k', v, h => by
    by_cases h1 : k' = k0
    · subst h1
      simp [Store.put, Store.get, h]
    · by_cases h2 : keyLt k' k0 = true
      · simp [Store.put, h1, h2, Store.get, h]
      · simp [Store.put, h1, h2, Store.get, Store.get_put_ne rest k k' v h]

theorem Store.put_put_same : ∀ (s : Store) (k : Key) (v : DBValue),
    Store.put (Store.put s k v) k v = Store.put s k v
  | [], k, v => by simp [Store.put]
  | (k', v') :: rest, k, v => by
    by_cases h1 : k = k'
    · simp [Store.put, h1]
    · by_cases h2 : keyLt k k' = true
      · simp [Store.put, h1, h2]
      · simp [Store.put, h1, h2, Store.put_put_same rest k v]

theorem Store.mem_put : ∀ (s : Store) (k : Key) (v : DBValue) (p : Key × DBValue),
    p ∈ Store.put s k v → p = (k, v) ∨ p ∈ s
  | [], k, v, p, h => by simpa [Store.put] using h
  | (k', v') :: rest, k, v, p, h => by
    by_cases h1 : k = k'
    · simp only [Store.put, h1, if_pos rfl] at h
      rcases List.mem_cons.1 h with h | h
      · exact Or.inl (by simpa [h1] using h)
      · exact Or.inr (List.mem_cons_of_mem _ h)
    · by_cases h2 : keyLt k k' = true
      · simp only [Store.put, h1, h2, if_neg h1, if_pos h2] at h
        rcases List.mem_cons.1 h with h | h
        · exact Or.inl h
        · exact Or.inr h
      · simp only [Store.put, if_neg h1, h2, if_neg h2] at h
        rcases List.mem_cons.1 h with h | h
        · exact Or.inr (List.mem_cons.2 (Or.inl h))
        · rcases Store.mem_put rest k v p h with h | h
          · exact Or.inl h
          · exact Or.inr (List.mem_cons_of_mem _ h)

theorem vtx_key_ne_sys (id : Nat) : create_vertex_key id ≠ KEY_SYS_CONTEXT := by
  intro h
  simp [create_vertex_key, KEY_PREFIX, KEY_SYS_CONTEXT] at h

/-! Helper lemmas about the drop-time flush. -/

theorem flushContext_cons (i : Nat) (e : DirtyEntry) (rest : VertexCache) (s : Store) :
    flushContext ((i, e) :: rest) s =
      flushContext rest
        (if e.dirty then Store.put s (create_vertex_key i) (DBValue.vtx e.entry) else s) := rfl

theorem flushContext_dirty_singleton (id : Nat) (v : Vertex) (s : Store) :
    flushContext [(id, DirtyEntry.new v)] s =
      Store.put s (create_vertex_key id) (DBValue.vtx v) := by
  simp [flushContext, DirtyEntry.new]

theorem flushContext_get_notkey : ∀ (cache : VertexCache) (s : Store) (k : Key),
    (∀ p ∈ cache, create_vertex_key p.1 ≠ k) →
    Store.get (flushContext cache s) k = Store.get s k
  | [], _, _, _ => rfl
  | (i, e) :: rest, s, k, h => by
    have h1 : create_vertex_key i ≠ k := h (i, e) (List.mem_cons_self _ _)
    have h2 : ∀ p ∈ rest, create_vertex_key p.1 ≠ k :=
      fun p hp => h p (List.mem_cons_of_mem _ hp)
    rw [flushContext_cons, flushContext_get_notkey rest _ k h2]
    by_cases hd : e.dirty
    · rw [if_pos hd, Store.get_put_ne _ _ _ _ (Ne.symm h1)]
    · rw [if_neg hd]

theorem flushContext_get_dirty : ∀ (cache : VertexCache) (s : Store) (id : Nat) (e : DirtyEntry),
    (cache.map fun p => create_vertex_key p.1).Nodup →
    (id, e) ∈ cache → e.dirty = true →
    Store.get (flushContext cache s) (create_vertex_key id) = some (DBValue.vtx e.entry)
  | [], _, _, _, _, hm, _ => absurd hm (List.not_mem_nil _)
  | (i, e') :: rest, s, id, e, hnd, hm, hd => by
    rw [flushContext_cons]
    rw [List.map_cons] at hnd
    rcases List.mem_cons.1 hm with heq | hmem
    · injection heq with hi he
      subst hi; subst he
      rw [if_pos hd]
      have hne := (List.nodup_cons.1 hnd).1
      have hkeys : ∀ p ∈ rest, create_vertex_key p.1 ≠ create_vertex_key id := by
        intro p hp hpk
        apply hne
        have hmem2 : create_vertex_key p.1 ∈ rest.map fun q => create_vertex_key q.1 :=
          List.mem_map_of_mem _ hp
        rw [hpk] at hmem2
        exact hmem2
      rw [flushContext_get_notkey rest _ _ hkeys, Store.get_put_same]
    · exact flushContext_get_dirty rest _ id e (List.nodup_cons.1 hnd).2 hmem hd

/-! Helper lemmas about the byte order on keys. -/

theorem keyLt_trans : ∀ {a b c : Key},
    keyLt a b = true → keyLt b c = true → keyLt a c = true
  | [], [], _, h1, _ => by simp [keyLt] at h1
  | [], _ :: _, [], _, h2 => by simp [keyLt] at h2
  | [], _ :: _, _ :: _, _, _ => by simp [keyLt]
  | _ :: _, [], _, h1, _ => by simp [keyLt] at h1
  | _ :: _, _ :: _, [], _, h2 => by simp [keyLt] at h2
  | x :: as, y :: bs, z :: cs, h1, h2 => by
    by_cases hxy : x < y
    · by_cases hyz : y < z
      · simp [keyLt, lt_trans hxy hyz]
      · by_cases hzy : z < y
        · simp [keyLt, hyz, hzy] at h2
        · have : y = z := le_antisymm (not_lt.1 hzy) (not_lt.1 hyz)
          simp [keyLt, this ▸ hxy]
    · by_cases hyx : y < x
      · simp [keyLt, hxy, hyx] at h1
      · have hxy' : x = y := le_antisymm (not_lt.1 hyx) (not_lt.1 hxy)
        subst hxy'
        simp only [keyLt, if_neg hxy, if_neg hyx] at h1
        by_cases hyz : x < z
        · simp [keyLt, hyz]
        · by_cases hzy : z < x
          · simp [keyLt, hyz, hzy] at h2
          · simp only [keyLt, if_neg hyz, if_neg hzy] at h2 ⊢
            exact keyLt_trans h1 h2

theorem keyLt_of_ne : ∀ {a b : Key}, a ≠ b → keyLt a b = true ∨ keyLt b a = true
  | [], [], h => absurd rfl h
  | [], _ :: _, _ => Or.inl (by simp [keyLt])
  | _ :: _, [], _ => Or.inr (by simp [keyLt])
  | x :: as, y :: bs, h => by
    by_cases hxy : x < y
    · exact Or.inl (by simp [keyLt, hxy])
    · by_cases hyx : y < x
      · exact Or.inr (by simp [keyLt, hyx])
      · have hxy' : x = y := le_antisymm (not_lt.1 hyx) (not_lt.1 hxy)
        subst hxy'
        have hne : as ≠ bs := fun hab => h (hab ▸ rfl)
        rcases keyLt_of_ne hne with h1 | h1
        · exact Or.inl (by simp [keyLt, hxy, h1])
        · exact Or.inr (by simp [keyLt, hxy, h1])

/-! Sorted stores stay sorted under point writes. -/

theorem Store.sortedKeys_put : ∀ {s : Store}, Store.SortedKeys s →
    ∀ (k : Key) (v : DBValue), Store.SortedKeys (Store.put s k v)
  | [], _, k, v => by simp [Store.put, Store.SortedKeys]
  | (k', v') :: rest, hs, k, v => by
    have h0 : ∀ b ∈ rest, keyLt k' b.1 = true := (List.pairwise_cons.1 hs).1
    have htl : Store.SortedKeys rest := (List.pairwise_cons.1 hs).2
    by_cases h1 : k = k'
    · subst h1
      simp only [Store.put, if_pos rfl]
      exact List.pairwise_cons.2 ⟨h0, htl⟩
    · by_cases h2 : keyLt k k' = true
      · simp only [Store.put, if_neg h1, if_pos h2]
        refine List.pairwise_cons.2 ⟨?_, hs⟩
        intro b hb
        rcases List.mem_cons.1 hb with rfl | hb
        · exact h2
        · exact keyLt_trans h2 (h0 b hb)
      · simp only [Store.put, if_neg h1, if_neg h2]
        refine List.pairwise_cons.2 ⟨?_, Store.sortedKeys_put htl k v⟩
        intro b hb
        rcases Store.mem_put rest k v b hb with rfl | hb
        · rcases keyLt_of_ne h1 with h3 | h3
          · exact absurd h3 h2
          · exact h3
        · exact h0 b hb

/-! Helper lemmas about the prefix scan adapter and the scan steps. -/

theorem psDrain_eq_takeWhile : ∀ (p : Key) (l : List (Key × DBValue)),
    psDrain p l = l.takeWhile fun kv => p.isPrefixOf kv.1
  | _, [] => rfl
  | p, kv :: rest => by
    by_cases h : p.isPrefixOf kv.1
    · simp [psDrain, List.takeWhile_cons, h, psDrain_eq_takeWhile p rest]
    · simp [psDrain, List.takeWhile_cons, h]

theorem psDrain_keys_match : ∀ (p : Key) (l : List (Key × DBValue)) (kv : Key × DBValue),
    kv ∈ psDrain p l → p.isPrefixOf kv.1 = true
  | p, kv0 :: rest, kv, h => by
    by_cases hp : p.isPrefixOf kv0.1
    · rw [psDrain, if_pos hp] at h
      rcases List.mem_cons.1 h with rfl | h
      · exact hp
      · exact psDrain_keys_match p rest kv h
    · rw [psDrain, if_neg hp] at h
      exact absurd h (List.not_mem_nil _)

theorem psDrain_sublist (p : Key) (l : List (Key × DBValue)) : (psDrain p l).Sublist l := by
  rw [psDrain_eq_takeWhile]
  exact List.takeWhile_sublist _

theorem scanWithLabel_filter : ∀ (p : Key) (lab : String) (input : List (Key × DBValue))
    (vs : List Vertex), scanNoLabel p input = some vs →
    scanWithLabel p lab input = some (vs.filter fun v => decide (v.label = lab))
  | _, _, [], vs, h => by
    obtain rfl : ([] : List Vertex) = vs := Option.some.inj h
    rfl
  | p, lab, kv :: rest, vs, h => by
    by_cases hp : p.isPrefixOf kv.1
    · rw [scanNoLabel, if_pos hp] at h
      rw [scanWithLabel, if_pos hp]
      cases hdv : deserialize_vertex kv.2 with
      | none => rw [hdv] at h; exact absurd h (by simp)
      | some v =>
        rw [hdv] at h
        rcases Option.map_eq_some'.1 h with ⟨vs', hvs', rfl⟩
        rw [scanWithLabel_filter p lab rest vs' hvs']
        by_cases hl : v.label = lab
        · simp [hl, List.filter_cons]
        · simp [hl, List.filter_cons]
    · rw [scanNoLabel, if_neg hp] at h
      obtain rfl : ([] : List Vertex) = vs := Option.some.inj h
      rw [scanWithLabel, if_neg hp]
      rfl

/-! Helper lemmas about sequential vertex creation. -/

theorem addVertexAndDrop_eq (g : GraphState) :
    addVertexAndDrop g =
      (g.lsn + 1,
       { store :=
           Store.put (Store.put g.store KEY_SYS_CONTEXT (DBValue.ctx (g.lsn + 1)))
             (create_vertex_key (g.lsn + 1))
             (DBValue.vtx (Vertex.new (g.lsn + 1) DEFAULT_LABEL)),
         lsn := g.lsn + 1 }) := by
  simp [addVertexAndDrop, GraphTraversalSource.add_vertex,
    GraphTraversalSource.add_vertex_with_label, GraphTraversalSource.new_id,
    GraphTraversalSource.save_context, AddVertexTraversal.next, cacheGet,
    flushContext, DirtyEntry.new, Vertex.new]

theorem addChain_ids : ∀ (n : Nat) (g : GraphState),
    (addChain g n).map Prod.fst = List.range' (g.lsn + 1) n
  | 0, _ => rfl
  | n + 1, g => by
    simp only [addChain, List.map_cons, addVertexAndDrop_eq g, List.range']
    rw [addChain_ids n _]

theorem addChain_counter : ∀ (n : Nat) (g : GraphState) (p : Nat × GraphState),
    p ∈ addChain g n → Store.get p.2.store KEY_SYS_CONTEXT = some (DBValue.ctx p.1)
  | 0, _, _, h => absurd h (List.not_mem_nil _)
  | n + 1, g, p, h => by
    simp only [addChain] at h
    rcases List.mem_cons.1 h with rfl | h
    · rw [addVertexAndDrop_eq g]
      exact (Store.get_put_ne _ _ _ _ (Ne.symm (vtx_key_ne_sys _))).trans
        (Store.get_put_same _ _ _)
    · exact addChain_counter n _ p h

theorem addAbandonStore_eq (g : GraphState) (lab : String) :
    addAbandonStore g lab =
      Store.put (Store.put g.store KEY_SYS_CONTEXT (DBValue.ctx (g.lsn + 1)))
        (create_vertex_key (g.lsn + 1)) (DBValue.vtx (Vertex.new (g.lsn + 1) lab)) := by
  simp [addAbandonStore, GraphTraversalSource.add_vertex_with_label,
    GraphTraversalSource.new_id, GraphTraversalSource.save_context, flushContext,
    DirtyEntry.new]

/-! Claim theorems. -/

/-- Claim C4: for every sequence of N addVertex calls on one source, the
returned identifiers are the consecutive range above the starting counter,
hence strictly increasing and pairwise distinct, and after each call the
counter persisted under the well-known context key equals the identifier
just returned (the allocation persists the counter before returning). -/
theorem add_vertex_ids_monotone_and_persisted (g : GraphState) (n : Nat) :
    ((addChain g n).map Prod.fst = List.range' (g.lsn + 1) n) ∧
    List.Chain' (· < ·) ((addChain g n).map Prod.fst) ∧
    ((addChain g n).map Prod.fst).Nodup ∧
    ∀ p ∈ addChain g n, Store.get p.2.store KEY_SYS_CONTEXT = some (DBValue.ctx p.1) := by
  refine ⟨addChain_ids n g, ?_, ?_, fun p hp => addChain_counter n g p hp⟩
  · rw [addChain_ids n g]
    exact (List.pairwise_lt_range' _ _).chain'
  · rw [addChain_ids n g]
    exact List.nodup_range' _ _

/-- Witness for C4 at a concrete run: after the first addVertex call on a
fresh graph the persisted counter equals the returned id. -/
theorem add_vertex_ids_monotone_and_persisted_witness :
    Store.get (addVertexAndDrop freshGraph).2.store KEY_SYS_CONTEXT =
      some (DBValue.ctx (addVertexAndDrop freshGraph).1) :=
  (add_vertex_ids_monotone_and_persisted freshGraph 1).2.2.2 (addVertexAndDrop freshGraph)
    (by decide)

/-- Claim C5: the addVertex traversal yields on its first pull exactly the
freshly created entity — the newly allocated id, the requested label (the
default label stands in when unspecified, last conjunct), an empty property
mapping — served from the context cache (`AddVertexTraversal.next` takes no
store argument, so no store read is possible), and yields nothing on every
later pull. -/
theorem add_vertex_traversal_yields_one_fresh_entity (g : GraphState) (lab : String) :
    ((GraphTraversalSource.add_vertex_with_label g lab).1.next.1 =
      some (Vertex.new (g.lsn + 1) lab)) ∧
    ((GraphTraversalSource.add_vertex_with_label g lab).1.next.1 =
      (cacheGet (GraphTraversalSource.add_vertex_with_label g lab).1.context
        (g.lsn + 1)).map DirtyEntry.entry) ∧
    ((Vertex.new (g.lsn + 1) lab).id = g.lsn + 1) ∧
    ((Vertex.new (g.lsn + 1) lab).label = lab) ∧
    ((Vertex.new (g.lsn + 1) lab).prop = []) ∧
    ((GraphTraversalSource.add_vertex_with_label g lab).1.next.2.id = none) ∧
    (∀ t : AddVertexTraversal, t.id = none → AddVertexTraversal.next t = (none, t)) ∧
    (GraphTraversalSource.add_vertex g = GraphTraversalSource.add_vertex_with_label g DEFAULT_LABEL) := by
  refine ⟨?_, ?_, rfl, rfl, rfl, ?_, ?_, rfl⟩
  · simp [GraphTraversalSource.add_vertex_with_label, GraphTraversalSource.new_id,
      GraphTraversalSource.save_context, AddVertexTraversal.next, cacheGet, DirtyEntry.new]
  · simp [GraphTraversalSource.add_vertex_with_label, GraphTraversalSource.new_id,
      GraphTraversalSource.save_context, AddVertexTraversal.next]
  · simp [GraphTraversalSource.add_vertex_with_label, GraphTraversalSource.new_id,
      GraphTraversalSource.save_context, AddVertexTraversal.next]
  · intro t h
    obtain ⟨i, c⟩ := t
    cases h
    rfl

/-- Witness for C5 at a concrete input: an exhausted add traversal yields
nothing. -/
theorem add_vertex_traversal_yields_one_fresh_entity_witness :
    AddVertexTraversal.next ⟨none, []⟩ = (none, ⟨none, []⟩) :=
  (add_vertex_traversal_yields_one_fresh_entity freshGraph "vertex").2.2.2.2.2.2.1
    ⟨none, []⟩ rfl

/-- Claim C8: the prefix scan adapter's drained sequence is the longest
take of the underlying ascending scan all of whose keys start with the
configured stem (so it ends at the first key that does not); every yielded
pair's key starts with the stem; and one `next` pull on a non-matching
head key ends the sequence. -/
theorem prefix_scan_adapter_bounds :
    (∀ (p : Key) (l : List (Key × DBValue)),
        psDrain p l = l.takeWhile fun kv => p.isPrefixOf kv.1) ∧
    (∀ (p : Key) (l : List (Key × DBValue)) (kv : Key × DBValue),
        kv ∈ psDrain p l → p.isPrefixOf kv.1 = true) ∧
    (∀ (it : PrefixSearchIterator) (kv : Key × DBValue) (rest : List (Key × DBValue)),
        it.prefix_iterator = kv :: rest → it.pfx.isPrefixOf kv.1 = false →
        PrefixSearchIterator.next it = (none, { it with prefix_iterator := rest })) := by
  refine ⟨psDrain_eq_takeWhile, psDrain_keys_match, ?_⟩
  intro it kv rest h1 h2
  obtain ⟨pi, pf⟩ := it
  simp only at h1 h2
  subst h1
  simp [PrefixSearchIterator.next, h2]

/-- Witness for C8 at a concrete input: a head key not starting with the
stem ends the sequence. -/
theorem prefix_scan_adapter_bounds_witness :
    PrefixSearchIterator.next ⟨[("abc".data, DBValue.ctx 0)], "vtx_".data⟩ =
      (none, ⟨[], "vtx_".data⟩) :=
  prefix_scan_adapter_bounds.2.2 ⟨[("abc".data, DBValue.ctx 0)], "vtx_".data⟩
    ("abc".data, DBValue.ctx 0) [] rfl (by decide)

/-- Claim C9: fetching an identifier that has no entity stored under its
key yields the empty sequence, not an error. -/
theorem vertex_with_id_missing_yields_empty (g : GraphState) (id : Nat)
    (h : Store.get g.store (create_vertex_key id) = none) :
    (GraphTraversalSource.vertex_with_id g id).drain g.store = some [] := by
  simp [GraphTraversalSource.vertex_with_id, VertexWithIdTraversal.drain, h]

/-- Witness for C9 at a concrete input: id 1 on a fresh (empty) graph. -/
theorem vertex_with_id_missing_yields_empty_witness :
    (GraphTraversalSource.vertex_with_id freshGraph 1).drain freshGraph.store = some [] :=
  vertex_with_id_missing_yields_empty freshGraph 1 (by decide)

/-- Claim C10: the three read traversals spawn contexts with empty caches,
their drained sequences are independent of the cache (no iterator
operation inserts into it), and the flush at their teardown leaves any
store unchanged — only addVertex traversals (and the counter persist)
write to the store. -/
theorem read_traversals_leave_store_unchanged (g : GraphState) (lab : String) (i : Nat)
    (s : Store) (ps : PrefixSearchIterator) (olab : Option String)
    (c c' : VertexCache) (oid : Option Nat) :
    ((GraphTraversalSource.vertices g)._context = []) ∧
    ((GraphTraversalSource.vertices_with_label g lab)._context = []) ∧
    ((GraphTraversalSource.vertex_with_id g i)._context = []) ∧
    (VertexTraversal.drain ⟨ps, olab, c⟩ = VertexTraversal.drain ⟨ps, olab, c'⟩) ∧
    (VertexWithIdTraversal.drain s ⟨oid, c⟩ = VertexWithIdTraversal.drain s ⟨oid, c'⟩) ∧
    (flushContext (GraphTraversalSource.vertices g)._context s = s) ∧
    (flushContext (GraphTraversalSource.vertices_with_label g lab)._context s = s) ∧
    (flushContext (GraphTraversalSource.vertex_with_id g i)._context s = s) :=
  ⟨rfl, rfl, rfl, rfl, rfl, rfl, rfl, rfl⟩

/-- Claim C1: at context teardown every dirty cache entry is serialized
and point-written under its entity key (first conjunct, for any cache with
distinct entity keys); pulling from an add traversal does not change its
context, so a drained, partially drained, or abandoned traversal flushes
the same cache (second conjunct); and a vertex created by addVertex and
abandoned is durably readable through a subsequently opened source (last
two conjuncts). -/
theorem flush_on_drop_persists_dirty_entries (cache : VertexCache) (s : Store)
    (id : Nat) (e : DirtyEntry) (g : GraphState) (lab : String) :
    ((cache.map fun p => create_vertex_key p.1).Nodup → (id, e) ∈ cache →
      e.dirty = true →
      Store.get (flushContext cache s) (create_vertex_key id) =
        some (DBValue.vtx e.entry)) ∧
    (∀ t : AddVertexTraversal, (AddVertexTraversal.next t).2.context = t.context) ∧
    (GraphTraversalSource.new (addAbandonStore g lab) =
      some { store := addAbandonStore g lab, lsn := g.lsn + 1 }) ∧
    ((GraphTraversalSource.vertex_with_id
        { store := addAbandonStore g lab, lsn := g.lsn + 1 } (g.lsn + 1)).drain
        (addAbandonStore g lab) = some [Vertex.new (g.lsn + 1) lab]) := by
  have hsys : Store.get (addAbandonStore g lab) KEY_SYS_CONTEXT =
      some (DBValue.ctx (g.lsn + 1)) := by
    rw [addAbandonStore_eq, Store.get_put_ne _ _ _ _ (Ne.symm (vtx_key_ne_sys _)),
      Store.get_put_same]
  have hvtx : Store.get (addAbandonStore g lab) (create_vertex_key (g.lsn + 1)) =
      some (DBValue.vtx (Vertex.new (g.lsn + 1) lab)) := by
    rw [addAbandonStore_eq, Store.get_put_same]
  refine ⟨fun h1 h2 h3 => flushContext_get_dirty cache s id e h1 h2 h3, ?_, ?_, ?_⟩
  · intro t
    obtain ⟨i, c⟩ := t
    cases i <;> rfl
  · simp [GraphTraversalSource.new, hsys]
  · simp [GraphTraversalSource.vertex_with_id, VertexWithIdTraversal.drain, hvtx,
      deserialize_vertex]

/-- Witness for C1 at a concrete input: a singleton dirty cache is
point-written under its entity key. -/
theorem flush_on_drop_persists_dirty_entries_witness :
    Store.get (flushContext [(7, DirtyEntry.new (Vertex.new 7 "w"))] [])
      (create_vertex_key 7) = some (DBValue.vtx (Vertex.new 7 "w")) :=
  (flush_on_drop_persists_dirty_entries [(7, DirtyEntry.new (Vertex.new 7 "w"))] [] 7
      (DirtyEntry.new (Vertex.new 7 "w")) freshGraph "w").1 (by decide) (by decide) rfl

/-- Claim C3 round-trip: addVertex(L) yields the created entity, and after
the context flush a vertexWithId pull on the returned id yields exactly
that one entity — same id, same label, empty property mapping. -/
theorem add_vertex_round_trip (g : GraphState) (lab : String) :
    ((GraphTraversalSource.add_vertex_with_label g lab).1.next.1 =
      some (Vertex.new (g.lsn + 1) lab)) ∧
    ((GraphTraversalSource.vertex_with_id
        { store := addAbandonStore g lab, lsn := g.lsn + 1 } (g.lsn + 1)).drain
        (addAbandonStore g lab) = some [Vertex.new (g.lsn + 1) lab]) ∧
    ((Vertex.new (g.lsn + 1) lab).id = g.lsn + 1) ∧
    ((Vertex.new (g.lsn + 1) lab).label = lab) ∧
    ((Vertex.new (g.lsn + 1) lab).prop = []) := by
  have hvtx : Store.get (addAbandonStore g lab) (create_vertex_key (g.lsn + 1)) =
      some (DBValue.vtx (Vertex.new (g.lsn + 1) lab)) := by
    rw [addAbandonStore_eq, Store.get_put_same]
  refine ⟨?_, ?_, rfl, rfl, rfl⟩
  · simp [GraphTraversalSource.add_vertex_with_label, GraphTraversalSource.new_id,
      GraphTraversalSource.save_context, AddVertexTraversal.next, cacheGet, DirtyEntry.new]
  · simp [GraphTraversalSource.vertex_with_id, VertexWithIdTraversal.drain, hvtx,
      deserialize_vertex]

/-- Counterexample to claim C2 as stated: with one dirty cache entry, the
drop-loop flush performs one write, and running the same flush a second
time performs one more write (not zero) — two writes for one dirty entity
across two flushes; the loop never mutates the cache, whose entry is
still marked dirty. -/
theorem flush_second_pass_writes_again :
    ((flushContextCount [(1, DirtyEntry.new (Vertex.new 1 "vertex"))] freshGraph.store).2
      = 1) ∧
    ((flushContextCount [(1, DirtyEntry.new (Vertex.new 1 "vertex"))]
        (flushContextCount [(1, DirtyEntry.new (Vertex.new 1 "vertex"))]
          freshGraph.store).1).2 = 1) ∧
    (cacheGet [(1, DirtyEntry.new (Vertex.new 1 "vertex"))] 1 =
      some { dirty := true, entry := Vertex.new 1 "vertex" }) := by
  decide

/-- Claim C2 as amended: the drop-time flush never clears dirty flags, so
a second flush of the same context state repeats one write per dirty
entry rather than performing none; but it writes identical values, so the
store after the second flush equals the store after the first (shown for
the caches this program creates: empty, or one fresh dirty entry). In an
actual run the flush happens exactly once, at drop. -/
theorem flush_idempotent_on_store_contents (id : Nat) (v : Vertex) (s : Store) :
    (flushContextCount [] s = (s, 0)) ∧
    ((flushContextCount [(id, DirtyEntry.new v)] s).2 = 1) ∧
    ((flushContextCount [(id, DirtyEntry.new v)]
        (flushContextCount [(id, DirtyEntry.new v)] s).1).2 = 1) ∧
    (flushContext [(id, DirtyEntry.new v)] (flushContext [(id, DirtyEntry.new v)] s) =
      flushContext [(id, DirtyEntry.new v)] s) := by
  refine ⟨rfl, ?_, ?_, ?_⟩
  · simp [flushContextCount, DirtyEntry.new]
  · simp [flushContextCount, DirtyEntry.new]
  · rw [flushContext_dirty_singleton, flushContext_dirty_singleton, Store.put_put_same]

/-- Claim C6: on a store with ascending keys the scan feeding allVertices
yields its pairs in ascending byte order of their keys; entity keys are
the stem plus the un-padded decimal id, and byte order disagrees with
numeric id order past one digit: "vtx_10" sorts before "vtx_2", so ten
vertices scan as ids 1, 10, 2, ..., 9, while nine vertices scan in
ascending numeric order. -/
theorem all_vertices_key_order (s : Store) (hs : Store.SortedKeys s) :
    (((psDrain KEY_PREFIX (seekScan s KEY_PREFIX)).map Prod.fst).Pairwise
      fun a b => keyLt a b = true) ∧
    (keyLt "vtx_10".data "vtx_2".data = true) ∧
    (create_vertex_key 10 = "vtx_10".data) ∧
    (create_vertex_key 2 = "vtx_2".data) ∧
    (((GraphTraversalSource.vertices (addN freshGraph 10)).drain).map
      (List.map Vertex.id) = some [1, 10, 2, 3, 4, 5, 6, 7, 8, 9]) ∧
    (((GraphTraversalSource.vertices (addN freshGraph 9)).drain).map
      (List.map Vertex.id) = some [1, 2, 3, 4, 5, 6, 7, 8, 9]) := by
  refine ⟨?_, by decide, by decide, by decide, by decide, by decide⟩
  have h1 : (seekScan s KEY_PREFIX).Pairwise (fun a b => keyLt a.1 b.1 = true) :=
    hs.filter _
  have h2 := List.Pairwise.sublist (psDrain_sublist KEY_PREFIX (seekScan s KEY_PREFIX)) h1
  exact List.pairwise_map.2 h2

/-- Witness for C6 at a concrete input: the store after two addVertex
calls on a fresh graph has ascending keys, and its scan keys come out in
ascending byte order. -/
theorem all_vertices_key_order_witness :
    ((psDrain KEY_PREFIX (seekScan (addN freshGraph 2).store KEY_PREFIX)).map
      Prod.fst).Pairwise (fun a b => keyLt a b = true) :=
  (all_vertices_key_order (addN freshGraph 2).store (by decide)).1

/-- Claim C7: the label-filtered scan yields exactly the scanned entities
whose label matches — a mismatch is skipped, never treated as
end-of-sequence — and it ends exactly where the unfiltered scan ends. -/
theorem vertices_with_label_filters (g : GraphState) (lab : String) (vs : List Vertex)
    (h : (GraphTraversalSource.vertices g).drain = some vs) :
    (GraphTraversalSource.vertices_with_label g lab).drain =
      some (vs.filter fun v => decide (v.label = lab)) := by
  have h' : scanNoLabel KEY_PREFIX (seekScan g.store KEY_PREFIX) = some vs := h
  exact scanWithLabel_filter _ lab _ vs h'

/-- Witness for C7 at a concrete input: labels v1, custom, v1, custom
yield exactly the two custom entities, in key order. -/
theorem vertices_with_label_filters_witness :
    (GraphTraversalSource.vertices_with_label
        (addLabeledChain freshGraph ["v1", "custom", "v1", "custom"]) "custom").drain =
      some ([Vertex.new 1 "v1", Vertex.new 2 "custom", Vertex.new 3 "v1",
        Vertex.new 4 "custom"].filter fun v => decide (v.label = "custom")) :=
  vertices_with_label_filters _ "custom" _ (by decide)

end Grdb
